import Mathlib

/-!
Verification of the NoiseShaper plateau-filter DSP core.

The JavaScript sources (the audio-worklet processor, the web fallback
filter in plateau.js, and the FFT module ftt.js) are shallowly embedded
here.  JavaScript numbers are modelled as real numbers; Float32/Float64
arrays of length L are modelled as total functions from ℕ, read on
indices below L.  Each definition mirrors one source function and keeps
its name where Lean allows.
-/

namespace NoiseShaper

open Finset

/-- Complex value built from a real part and an imaginary part, as the
source's complex-number class stores them (constructor Complex(real, imag)). -/
def mkC (re im : ℝ) : ℂ := ⟨re, im⟩

/-- Source method scale(factor): multiply both components by a real factor. -/
def cscale (z : ℂ) (k : ℝ) : ℂ := mkC (z.re * k) (z.im * k)

/-- Source static method fromPolar(r, theta) = (r·cos θ, r·sin θ). -/
noncomputable def fromPolar (r θ : ℝ) : ℂ := mkC (r * Real.cos θ) (r * Real.sin θ)

/-- Recursive radix-2 forward FFT from the worklet source (identical copy in
ftt.js).  A sequence of length N = 2 ^ n is a function read on `[0, 2^n)`;
the even/odd split `even[i] = x[2i]`, `odd[i] = x[2i+1]` becomes function
composition, and the butterfly writes `result[k] = even[k] + t` and
`result[k + N/2] = even[k] - t` with `t = odd[k] * fromPolar(1, -2πk/N)`. -/
noncomputable def fft : ℕ → (ℕ → ℂ) → ℕ → ℂ
  | 0, x => x
  | n + 1, x => fun k =>
      if k < 2 ^ n then
        fft n (fun i => x (2 * i)) k +
          fft n (fun i => x (2 * i + 1)) k *
            fromPolar 1 (-2 * Real.pi * k / (2 : ℝ) ^ (n + 1))
      else
        fft n (fun i => x (2 * i)) (k - 2 ^ n) -
          fft n (fun i => x (2 * i + 1)) (k - 2 ^ n) *
            fromPolar 1 (-2 * Real.pi * ((k - 2 ^ n : ℕ) : ℝ) / (2 : ℝ) ^ (n + 1))

/-- Recursive radix-2 inverse FFT from the source: positive twiddle angle
`+2πk/N` and a 0.5 scale applied at each combination level. -/
noncomputable def ifft : ℕ → (ℕ → ℂ) → ℕ → ℂ
  | 0, x => x
  | n + 1, x => fun k =>
      if k < 2 ^ n then
        cscale (ifft n (fun i => x (2 * i)) k +
          ifft n (fun i => x (2 * i + 1)) k *
            fromPolar 1 (2 * Real.pi * k / (2 : ℝ) ^ (n + 1))) 0.5
      else
        cscale (ifft n (fun i => x (2 * i)) (k - 2 ^ n) -
          ifft n (fun i => x (2 * i + 1)) (k - 2 ^ n) *
            fromPolar 1 (2 * Real.pi * ((k - 2 ^ n : ℕ) : ℝ) / (2 : ℝ) ^ (n + 1))) 0.5

/-- Primitive 2^m-th root of unity used to state what the transforms
compute (proof infrastructure, not part of the source). -/
noncomputable def twoRoot (m : ℕ) : ℂ := Complex.exp (2 * Real.pi * Complex.I / (2 : ℂ) ^ m)

/-- Frequency axis built by the worklet's createPlateauFilterMask:
`freqs[i] = i·sampleRate/size` for i ≤ size/2 (the comparison is on
JavaScript numbers, hence real division), else `(i−size)·sampleRate/size`. -/
noncomputable def freqAt (sampleRate : ℝ) (size : ℕ) (i : ℕ) : ℝ :=
  if (i : ℝ) ≤ (size : ℝ) / 2 then (i : ℝ) * sampleRate / size
  else ((i : ℝ) - size) * sampleRate / size

/-- Worklet PlateauProcessor.createPlateauFilterMask: plateau mask with
cosine transitions on the folded frequency axis, with the DC bin forced
to 0 after the loop (`mask[0] = 0.0`).  `sampleRate` is the worklet
global of the same name. -/
noncomputable def createPlateauFilterMask (centerFreq width flatWidth : ℝ)
    (size : ℕ) (sampleRate : ℝ) (i : ℕ) : ℝ :=
  if i = 0 then 0
  else if abs (abs (freqAt sampleRate size i) - centerFreq) < flatWidth / 2 then 1
  else if abs (abs (freqAt sampleRate size i) - centerFreq) < width / 2 then
    0.5 * (1 + Real.cos (Real.pi * (abs (abs (freqAt sampleRate size i) - centerFreq)
      - flatWidth / 2) / (width / 2 - flatWidth / 2)))
  else 0

/-- Claim-side restatement of the mask algorithm, written from the claim's
own words: `freq[i] = i·sampleRate/N` when i ≤ N/2 (natural numbers) and
`(i−N)·sampleRate/N` otherwise, `absDiff = ||freq[i]| − centerFreq|`, the
three-region piecewise formula, and bin 0 forced to 0. -/
noncomputable def maskSpecC4 (centerFreq width flatWidth sampleRate : ℝ)
    (N : ℕ) (i : ℕ) : ℝ :=
  if i = 0 then 0
  else
    if abs (abs (if i ≤ N / 2 then (i : ℝ) * sampleRate / N
        else ((i : ℝ) - N) * sampleRate / N) - centerFreq) < flatWidth / 2 then 1
    else if abs (abs (if i ≤ N / 2 then (i : ℝ) * sampleRate / N
        else ((i : ℝ) - N) * sampleRate / N) - centerFreq) < width / 2 then
      0.5 * (1 + Real.cos (Real.pi *
        (abs (abs (if i ≤ N / 2 then (i : ℝ) * sampleRate / N
          else ((i : ℝ) - N) * sampleRate / N) - centerFreq) - flatWidth / 2) /
        (width / 2 - flatWidth / 2)))
    else 0

/-- ftt.js createFrequencyArray: `freqs[i] = i·df` for i ≤ ⌊n/2⌋ and
`(i−n)·df` for larger i, with `df = sampleRate/n`. -/
noncomputable def createFrequencyArray (n : ℕ) (sampleRate : ℝ) (i : ℕ) : ℝ :=
  if i ≤ n / 2 then (i : ℝ) * (sampleRate / n)
  else ((i : ℝ) - n) * (sampleRate / n)

/-- ftt.js createPlateauFilterMask(frequencies, targetFreq, width, delta):
flat top for absDiff < delta, cosine taper for absDiff < width, zero
outside, and the DC bin set to 0 after the loop. -/
noncomputable def createPlateauFilterMaskF (frequencies : ℕ → ℝ)
    (targetFreq width delta : ℝ) (i : ℕ) : ℝ :=
  if i = 0 then 0
  else if abs (abs (frequencies i) - targetFreq) < delta then 1
  else if abs (abs (frequencies i) - targetFreq) < width then
    0.5 * (1 + Real.cos (Real.pi * (abs (abs (frequencies i) - targetFreq) - delta)
      / (width - delta)))
  else 0

/-- ftt.js applyFFTFilter: zero-pad the samples to the next power of two,
forward FFT, multiply each bin by the mask, inverse FFT, take the first
`samples.length` real parts, and divide every sample by the maximum
absolute amplitude when that maximum is positive. -/
noncomputable def applyFFTFilter (samples : List ℝ)
    (sampleRate targetFreq width delta : ℝ) : List ℝ :=
  let p := Nat.clog 2 samples.length
  let paddedLength := 2 ^ p
  let paddedInput : ℕ → ℂ := fun i =>
    if h : i < samples.length then mkC (samples.get ⟨i, h⟩) 0 else mkC 0 0
  let freqArray := createFrequencyArray paddedLength sampleRate
  let filterMask := createPlateauFilterMaskF freqArray targetFreq width delta
  let fftResult := fft p paddedInput
  let filteredFFT : ℕ → ℂ := fun i =>
    mkC ((fftResult i).re * filterMask i) ((fftResult i).im * filterMask i)
  let ifftResult := ifft p filteredFFT
  let result := (List.range samples.length).map fun i => (ifftResult i).re
  let maxAmp := result.foldl (fun m x => max m (abs x)) 0
  if maxAmp > 0 then result.map fun x => x / maxAmp else result

/-- Parameter state of the plateau filter in webbeta plateau.js. -/
structure PlateauFilter where
  centerFreq : ℝ
  width : ℝ
  flatWidth : ℝ
  gain : ℝ

/-- plateau.js setCenterFreq. -/
def PlateauFilter.setCenterFreq (f : PlateauFilter) (value : ℝ) : PlateauFilter :=
  { f with centerFreq := value }

/-- plateau.js setWidth: clamp the new width to flatWidth + 1 from below.
The source skips the assignment when the clamped value equals the current
width, which leaves the same final state. -/
def PlateauFilter.setWidth (f : PlateauFilter) (value : ℝ) : PlateauFilter :=
  { f with width := max value (f.flatWidth + 1) }

/-- plateau.js setFlatWidth: clamp the new flat width to width − 1 from above. -/
def PlateauFilter.setFlatWidth (f : PlateauFilter) (value : ℝ) : PlateauFilter :=
  { f with flatWidth := min value (f.width - 1) }

/-- plateau.js setGain. -/
def PlateauFilter.setGain (f : PlateauFilter) (value : ℝ) : PlateauFilter :=
  { f with gain := value }

/-- Hanning window used by both paths: w[i] = 0.5·(1 − cos(2πi/(N−1))). -/
noncomputable def hanningWindow (N : ℕ) (i : ℕ) : ℝ :=
  0.5 * (1 - Real.cos (2 * Real.pi * i / ((N : ℝ) - 1)))

/-- plateau.js _calculateMask(freq): flat region `freqDiff < flatWidth/2`,
transition `freqDiff ≤ width/2` (note the non-strict bound in this copy),
zero outside.  No DC handling here. -/
noncomputable def PlateauFilter.calculateMask (f : PlateauFilter) (freq : ℝ) : ℝ :=
  if abs (freq - f.centerFreq) < f.flatWidth / 2 then 1
  else if abs (freq - f.centerFreq) ≤ f.width / 2 then
    0.5 * (1 + Real.cos (Real.pi * (abs (freq - f.centerFreq) - f.flatWidth / 2)
      / (f.width / 2 - f.flatWidth / 2)))
  else 0

/-- plateau.js _applyWindow: multiply the occupied entries by the Hanning
window in place. -/
noncomputable def applyWindow (buffer : ℕ → ℝ) (size : ℕ) : ℕ → ℝ :=
  fun i => if i < size then buffer i * hanningWindow size i else buffer i

/-- plateau.js _calculateFFT: the source returns the buffer unchanged
(the comment there defers the real FFT to the worklet), so this is the
identity on the buffer. -/
def calculateFFT (buffer : ℕ → ℝ) : ℕ → ℝ := buffer

/-- plateau.js _calculateIFFT: likewise the identity in the source. -/
def calculateIFFT (spectrum : ℕ → ℝ) : ℕ → ℝ := spectrum

/-- plateau.js _applyFilter: multiply entry i by the mask evaluated at
`freq = i · nyquist / binCount` with `nyquist = sampleRate/2`. -/
noncomputable def PlateauFilter.applyFilter (f : PlateauFilter) (sampleRate : ℝ)
    (binCount : ℕ) (spectrum : ℕ → ℝ) : ℕ → ℝ :=
  fun i => if i < binCount then
    spectrum i * f.calculateMask ((i : ℝ) * (sampleRate / 2) / binCount)
  else spectrum i

/-- plateau.js _processAudio (the non-real-time fallback path): copy the
input block, window it, run the (stub) FFT, apply the mask, run the
(stub) IFFT, and write `ifft[i] * gain` to the output block. -/
noncomputable def PlateauFilter.processAudio (f : PlateauFilter) (sampleRate : ℝ)
    (bufferSize : ℕ) (inputData : ℕ → ℝ) : ℕ → ℝ :=
  let tempBuffer : ℕ → ℝ := fun i => if i < bufferSize then inputData i else 0
  let windowed := applyWindow tempBuffer bufferSize
  let fftArr := calculateFFT windowed
  let filtered := f.applyFilter sampleRate bufferSize fftArr
  let ifftArr := calculateIFFT filtered
  fun i => if i < bufferSize then ifftArr i * f.gain else 0

/-- Mutable state of the worklet PlateauProcessor.  The source fixes
`fftSize = 2048 = 2 ^ 11`; the embedding carries the exponent `fftN`
so that the power-of-two invariant is structural. -/
structure WorkletState where
  centerFreq : ℝ
  width : ℝ
  flatWidth : ℝ
  gain : ℝ
  fftN : ℕ
  overlappedOutput : ℕ → ℝ
  processedOutput : ℕ → ℝ

/-- Result of one worklet process callback: the output block, the new
state, and whether the FFT/IFFT pair was invoked on this block. -/
structure ProcessResult where
  output : ℕ → ℝ
  state : WorkletState
  usedFFT : Bool

/-- Worklet PlateauProcessor.process.  Parameters arrive as the k-rate
values `parameters.x[0]` (an absent value keeps the previous field, as in
the source's undefined checks); `input` is `inputs[0][0]` when present;
`blockSize` is the common length of the input and output blocks.  The
host hands the callback a zero-filled output buffer, so the branches that
return without writing produce a zero block. -/
noncomputable def PlateauProcessor.process (s : WorkletState) (sampleRate : ℝ)
    (pCenterFreq pWidth pFlatWidth pGain : Option ℝ)
    (input : Option (ℕ → ℝ)) (blockSize : ℕ) : ProcessResult :=
  let centerFreq := pCenterFreq.getD s.centerFreq
  let width0 := pWidth.getD s.width
  let flatWidth := pFlatWidth.getD s.flatWidth
  let gain := pGain.getD s.gain
  let width := max width0 (flatWidth + 1)
  let s1 : WorkletState := { s with
    centerFreq := centerFreq
    width := width
    flatWidth := flatWidth
    gain := gain }
  match input with
  | none => { output := fun _ => 0, state := s1, usedFFT := false }
  | some input =>
    if gain = 0 then
      { output := fun _ => 0, state := s1, usedFFT := false }
    else
      let N := 2 ^ s.fftN
      let inputBuffer : ℕ → ℝ := fun i =>
        if i < blockSize then input i * hanningWindow N i else 0
      let fftInput : ℕ → ℂ := fun i => mkC (inputBuffer i) 0
      let fftOutput := fft s.fftN fftInput
      let filterMask := createPlateauFilterMask centerFreq width flatWidth N sampleRate
      let masked : ℕ → ℂ := fun i => cscale (fftOutput i) (filterMask i * gain)
      let ifftOutput := ifft s.fftN masked
      let processed : ℕ → ℝ := fun i => (ifftOutput i).re * hanningWindow N i
      let newProcessed : ℕ → ℝ := fun i =>
        if i < N then processed i else s.processedOutput i
      let output : ℕ → ℝ := fun i =>
        if i < blockSize then processed i + s.overlappedOutput i else 0
      let newOverlap : ℕ → ℝ := fun i =>
        if i < blockSize then
          (if i + blockSize < N then processed (i + blockSize) else 0)
        else s.overlappedOutput i
      { output := output
        state := { s1 with
          overlappedOutput := newOverlap
          processedOutput := newProcessed }
        usedFFT := true }

/-- Value written into processedOutput[i] by the main path of the worklet
process callback (window, FFT, mask·gain, IFFT, real part, window again).
This names the composite already present inside PlateauProcessor.process so
that the frame-pipeline lemmas can speak about it. -/
noncomputable def procVal (n : ℕ) (sampleRate centerFreq width flatWidth gain : ℝ)
    (input : ℕ → ℝ) (blockSize : ℕ) (i : ℕ) : ℝ :=
  (ifft n (fun j => cscale
      (fft n (fun t => mkC (if t < blockSize then input t * hanningWindow (2 ^ n) t else 0) 0) j)
      (createPlateauFilterMask centerFreq width flatWidth (2 ^ n) sampleRate j * gain)) i).re
    * hanningWindow (2 ^ n) i

/-! Basic facts about the embedded complex helpers. -/

lemma mkC_zero : mkC 0 0 = 0 := by
  apply Complex.ext <;> simp [mkC]

lemma cscale_zero_left (k : ℝ) : cscale 0 k = 0 := by
  apply Complex.ext <;> simp [cscale, mkC]

lemma cscale_zero_right (z : ℂ) : cscale z 0 = 0 := by
  apply Complex.ext <;> simp [cscale, mkC]

lemma mkC_re (a b : ℝ) : (mkC a b).re = a := rfl

lemma mkC_im (a b : ℝ) : (mkC a b).im = b := rfl

lemma cscale_eq (z : ℂ) (k : ℝ) : cscale z k = z * (k : ℂ) := by
  apply Complex.ext <;> simp [cscale, mkC, Complex.mul_re, Complex.mul_im]

lemma mkC_ofReal (a : ℝ) : mkC a 0 = (a : ℂ) := by
  apply Complex.ext <;> simp [mkC]

lemma fromPolar_one (θ : ℝ) : fromPolar 1 θ = Complex.exp (θ * Complex.I) := by
  apply Complex.ext <;>
    simp [fromPolar, mkC, Complex.exp_mul_I, ← Complex.ofReal_cos, ← Complex.ofReal_sin]

/-! Properties of the primitive 2^m-th root of unity. -/

lemma twoRoot_prim (m : ℕ) : IsPrimitiveRoot (twoRoot m) (2 ^ m) := by
  have hne : (2 : ℕ) ^ m ≠ 0 := (pow_pos (by norm_num : (0:ℕ) < 2) m).ne'
  have h := Complex.isPrimitiveRoot_exp (2 ^ m) hne
  have hc : (((2 : ℕ) ^ m : ℕ) : ℂ) = (2 : ℂ) ^ m := by push_cast; ring
  rw [twoRoot, ← hc]
  exact h

lemma twoRoot_ne_zero (m : ℕ) : twoRoot m ≠ 0 := Complex.exp_ne_zero _

lemma twoRoot_pow_card (m : ℕ) : twoRoot m ^ (2 ^ m) = 1 := (twoRoot_prim m).pow_eq_one

lemma twoRoot_sq (m : ℕ) : twoRoot (m + 1) ^ 2 = twoRoot m := by
  rw [twoRoot, twoRoot, ← Complex.exp_nat_mul]
  congr 1
  have hm : (2 : ℂ) ^ m ≠ 0 := pow_ne_zero m two_ne_zero
  push_cast
  rw [pow_succ]
  field_simp
  ring

lemma twoRoot_pow_half (m : ℕ) : twoRoot (m + 1) ^ (2 ^ m) = -1 := by
  rw [twoRoot, ← Complex.exp_nat_mul, ← Complex.exp_pi_mul_I]
  congr 1
  have hm : (2 : ℂ) ^ m ≠ 0 := pow_ne_zero m two_ne_zero
  push_cast
  rw [pow_succ]
  field_simp
  ring

lemma inv_twoRoot_sq (m : ℕ) : ((twoRoot (m + 1))⁻¹) ^ 2 = (twoRoot m)⁻¹ := by
  rw [inv_pow, twoRoot_sq]

lemma inv_twoRoot_pow_card (m : ℕ) : ((twoRoot m)⁻¹) ^ (2 ^ m) = 1 := by
  rw [inv_pow, twoRoot_pow_card, inv_one]

lemma inv_twoRoot_pow_half (m : ℕ) : ((twoRoot (m + 1))⁻¹) ^ (2 ^ m) = -1 := by
  rw [inv_pow, twoRoot_pow_half]
  norm_num

lemma twoRoot_pow_even (n a : ℕ) : twoRoot (n + 1) ^ (2 * a) = twoRoot n ^ a := by
  rw [pow_mul, twoRoot_sq]

lemma inv_twoRoot_pow_even (n a : ℕ) :
    ((twoRoot (n + 1))⁻¹) ^ (2 * a) = ((twoRoot n)⁻¹) ^ a := by
  rw [pow_mul, inv_twoRoot_sq]

lemma twoRoot_pow_size_mul (n a : ℕ) : twoRoot (n + 1) ^ (2 * 2 ^ n * a) = 1 := by
  rw [pow_mul, show 2 * 2 ^ n = 2 ^ (n + 1) by ring, twoRoot_pow_card, one_pow]

lemma inv_twoRoot_pow_size_mul (n a : ℕ) :
    ((twoRoot (n + 1))⁻¹) ^ (2 * 2 ^ n * a) = 1 := by
  rw [pow_mul, show 2 * 2 ^ n = 2 ^ (n + 1) by ring, inv_twoRoot_pow_card, one_pow]

/-- Twiddle factor of the forward butterfly as a power of the inverse root. -/
lemma fromPolar_neg_twiddle (m k : ℕ) :
    fromPolar 1 (-2 * Real.pi * k / (2 : ℝ) ^ m) = ((twoRoot m)⁻¹) ^ k := by
  rw [fromPolar_one, inv_pow, twoRoot, ← Complex.exp_nat_mul, ← Complex.exp_neg]
  congr 1
  have hm : (2 : ℂ) ^ m ≠ 0 := pow_ne_zero m two_ne_zero
  push_cast
  field_simp
  ring

/-- Twiddle factor of the inverse butterfly as a power of the root. -/
lemma fromPolar_pos_twiddle (m k : ℕ) :
    fromPolar 1 (2 * Real.pi * k / (2 : ℝ) ^ m) = twoRoot m ^ k := by
  rw [fromPolar_one, twoRoot, ← Complex.exp_nat_mul]
  congr 1
  push_cast
  ring

/-- Splitting a sum over an even range into even- and odd-indexed parts. -/
lemma sum_range_double (m : ℕ) (f : ℕ → ℂ) :
    ∑ j ∈ Finset.range (2 * m), f j =
      ∑ i ∈ Finset.range m, f (2 * i) + ∑ i ∈ Finset.range m, f (2 * i + 1) := by
  induction m with
  | zero => simp
  | succ m ih =>
    rw [show 2 * (m + 1) = 2 * m + 1 + 1 by ring, Finset.sum_range_succ,
      Finset.sum_range_succ, ih, Finset.sum_range_succ, Finset.sum_range_succ]
    ring

/-- What the recursive forward FFT computes: the discrete Fourier transform
with kernel the inverse primitive root, on every index below the length. -/
theorem fft_spec (n : ℕ) : ∀ (x : ℕ → ℂ) (k : ℕ), k < 2 ^ n →
    fft n x k = ∑ j ∈ Finset.range (2 ^ n), x j * ((twoRoot n)⁻¹) ^ (j * k) := by
  induction n with
  | zero =>
    intro x k hk
    have hk0 : k = 0 := by omega
    subst hk0
    simp [fft, twoRoot]
  | succ n ih =>
    intro x k hk
    have hsplit : (2 : ℕ) ^ (n + 1) = 2 * 2 ^ n := by ring
    simp only [fft]
    rw [hsplit, sum_range_double]
    by_cases hkM : k < 2 ^ n
    · rw [if_pos hkM, ih _ _ hkM, ih _ _ hkM, fromPolar_neg_twiddle, Finset.sum_mul]
      have heven : ∀ i ∈ Finset.range (2 ^ n),
          x (2 * i) * ((twoRoot (n + 1))⁻¹) ^ (2 * i * k) =
            x (2 * i) * ((twoRoot n)⁻¹) ^ (i * k) := by
        intro i _
        rw [show 2 * i * k = 2 * (i * k) by ring, inv_twoRoot_pow_even]
      have hodd : ∀ i ∈ Finset.range (2 ^ n),
          x (2 * i + 1) * ((twoRoot (n + 1))⁻¹) ^ ((2 * i + 1) * k) =
            x (2 * i + 1) * ((twoRoot n)⁻¹) ^ (i * k) * ((twoRoot (n + 1))⁻¹) ^ k := by
        intro i _
        rw [show (2 * i + 1) * k = 2 * (i * k) + k by ring, pow_add, inv_twoRoot_pow_even]
        ring
      rw [Finset.sum_congr rfl heven, Finset.sum_congr rfl hodd]
    · have hk2 : k < 2 * 2 ^ n := lt_of_lt_of_le hk (le_of_eq hsplit)
      rw [if_neg hkM]
      set q := k - 2 ^ n with hq
      have hq' : q < 2 ^ n := by omega
      have hkk : k = 2 ^ n + q := by omega
      rw [ih _ _ hq', ih _ _ hq', fromPolar_neg_twiddle, hkk]
      have heven : ∀ i ∈ Finset.range (2 ^ n),
          x (2 * i) * ((twoRoot (n + 1))⁻¹) ^ (2 * i * (2 ^ n + q)) =
            x (2 * i) * ((twoRoot n)⁻¹) ^ (i * q) := by
        intro i _
        rw [show 2 * i * (2 ^ n + q) = 2 * (i * q) + 2 * 2 ^ n * i by ring,
          pow_add, inv_twoRoot_pow_even, inv_twoRoot_pow_size_mul, mul_one]
      have hodd : ∀ i ∈ Finset.range (2 ^ n),
          x (2 * i + 1) * ((twoRoot (n + 1))⁻¹) ^ ((2 * i + 1) * (2 ^ n + q)) =
            -(x (2 * i + 1) * ((twoRoot n)⁻¹) ^ (i * q) * ((twoRoot (n + 1))⁻¹) ^ q) := by
        intro i _
        rw [show (2 * i + 1) * (2 ^ n + q) = 2 * (i * q) + 2 * 2 ^ n * i + 2 ^ n + q by ring]
        simp only [pow_add]
        rw [inv_twoRoot_pow_even, inv_twoRoot_pow_size_mul, inv_twoRoot_pow_half]
        ring
      rw [Finset.sum_congr rfl heven, Finset.sum_congr rfl hodd,
        Finset.sum_neg_distrib, ← Finset.sum_mul]
      ring

/-- What the recursive inverse FFT computes: the inverse discrete Fourier
transform, with the per-level 0.5 scales accumulating to 1/2^n. -/
theorem ifft_spec (n : ℕ) : ∀ (x : ℕ → ℂ) (k : ℕ), k < 2 ^ n →
    ifft n x k = ((2 : ℂ) ^ n)⁻¹ *
      ∑ j ∈ Finset.range (2 ^ n), x j * twoRoot n ^ (j * k) := by
  induction n with
  | zero =>
    intro x k hk
    have hk0 : k = 0 := by omega
    subst hk0
    simp [ifft, twoRoot]
  | succ n ih =>
    intro x k hk
    have hsplit : (2 : ℕ) ^ (n + 1) = 2 * 2 ^ n := by ring
    have h05 : ((0.5 : ℝ) : ℂ) = (2 : ℂ)⁻¹ := by norm_num
    simp only [ifft]
    rw [hsplit, sum_range_double]
    by_cases hkM : k < 2 ^ n
    · rw [if_pos hkM, cscale_eq, h05, ih _ _ hkM, ih _ _ hkM, fromPolar_pos_twiddle]
      have heven : ∀ i ∈ Finset.range (2 ^ n),
          x (2 * i) * twoRoot (n + 1) ^ (2 * i * k) =
            x (2 * i) * twoRoot n ^ (i * k) := by
        intro i _
        rw [show 2 * i * k = 2 * (i * k) by ring, twoRoot_pow_even]
      have hodd : ∀ i ∈ Finset.range (2 ^ n),
          x (2 * i + 1) * twoRoot (n + 1) ^ ((2 * i + 1) * k) =
            x (2 * i + 1) * twoRoot n ^ (i * k) * twoRoot (n + 1) ^ k := by
        intro i _
        rw [show (2 * i + 1) * k = 2 * (i * k) + k by ring, pow_add, twoRoot_pow_even]
        ring
      rw [Finset.sum_congr rfl heven, Finset.sum_congr rfl hodd, ← Finset.sum_mul,
        pow_succ, mul_inv]
      ring
    · have hk2 : k < 2 * 2 ^ n := lt_of_lt_of_le hk (le_of_eq hsplit)
      rw [if_neg hkM, cscale_eq, h05]
      set q := k - 2 ^ n with hq
      have hq' : q < 2 ^ n := by omega
      have hkk : k = 2 ^ n + q := by omega
      rw [ih _ _ hq', ih _ _ hq', fromPolar_pos_twiddle, hkk]
      have heven : ∀ i ∈ Finset.range (2 ^ n),
          x (2 * i) * twoRoot (n + 1) ^ (2 * i * (2 ^ n + q)) =
            x (2 * i) * twoRoot n ^ (i * q) := by
        intro i _
        rw [show 2 * i * (2 ^ n + q) = 2 * (i * q) + 2 * 2 ^ n * i by ring,
          pow_add, twoRoot_pow_even, twoRoot_pow_size_mul, mul_one]
      have hodd : ∀ i ∈ Finset.range (2 ^ n),
          x (2 * i + 1) * twoRoot (n + 1) ^ ((2 * i + 1) * (2 ^ n + q)) =
            -(x (2 * i + 1) * twoRoot n ^ (i * q) * twoRoot (n + 1) ^ q) := by
        intro i _
        rw [show (2 * i + 1) * (2 ^ n + q) = 2 * (i * q) + 2 * 2 ^ n * i + 2 ^ n + q by ring]
        simp only [pow_add]
        rw [twoRoot_pow_even, twoRoot_pow_size_mul, twoRoot_pow_half]
        ring
      rw [Finset.sum_congr rfl heven, Finset.sum_congr rfl hodd,
        Finset.sum_neg_distrib, ← Finset.sum_mul, pow_succ, mul_inv]
      ring

/-- Orthogonality of the discrete Fourier kernels: summing the j-th powers
of `twoRoot^k · twoRoot⁻¹^l` over one period gives 2^m when k = l and 0
otherwise. -/
lemma twoRoot_orth (m k l : ℕ) (hk : k < 2 ^ m) (hl : l < 2 ^ m) :
    ∑ j ∈ Finset.range (2 ^ m), (twoRoot m ^ k * ((twoRoot m)⁻¹) ^ l) ^ j =
      if k = l then ((2 : ℂ) ^ m) else 0 := by
  by_cases hkl : k = l
  · subst hkl
    rw [if_pos rfl]
    have h1 : twoRoot m ^ k * ((twoRoot m)⁻¹) ^ k = 1 := by
      rw [inv_pow, mul_inv_cancel₀ (pow_ne_zero _ (twoRoot_ne_zero m))]
    simp only [h1, one_pow, Finset.sum_const, Finset.card_range, nsmul_eq_mul, mul_one]
    push_cast
    ring
  · rw [if_neg hkl]
    have hrn : (twoRoot m ^ k * ((twoRoot m)⁻¹) ^ l) ^ (2 ^ m) = 1 := by
      rw [mul_pow, ← pow_mul, ← pow_mul, mul_comm k (2 ^ m), mul_comm l (2 ^ m),
        pow_mul, pow_mul, twoRoot_pow_card, inv_twoRoot_pow_card, one_pow, one_pow, one_mul]
    have hr1 : twoRoot m ^ k * ((twoRoot m)⁻¹) ^ l ≠ 1 := by
      intro h1
      apply hkl
      rw [inv_pow] at h1
      exact (twoRoot_prim m).pow_inj hk hl
        ((mul_inv_eq_one₀ (pow_ne_zero l (twoRoot_ne_zero m))).mp h1)
    rw [geom_sum_eq hr1, hrn]
    simp

/-- The inverse FFT undoes the forward FFT on every index of the block. -/
theorem ifft_fft (n : ℕ) (x : ℕ → ℂ) (k : ℕ) (hk : k < 2 ^ n) :
    ifft n (fft n x) k = x k := by
  rw [ifft_spec n _ k hk]
  have hstep : ∀ j ∈ Finset.range (2 ^ n), fft n x j * twoRoot n ^ (j * k) =
      ∑ l ∈ Finset.range (2 ^ n),
        x l * (twoRoot n ^ k * ((twoRoot n)⁻¹) ^ l) ^ j := by
    intro j hj
    rw [fft_spec n x j (Finset.mem_range.mp hj), Finset.sum_mul]
    refine Finset.sum_congr rfl fun l _ => ?_
    rw [mul_pow, ← pow_mul, ← pow_mul, mul_comm j k]
    ring
  rw [Finset.sum_congr rfl hstep, Finset.sum_comm]
  have hinner : ∀ l ∈ Finset.range (2 ^ n),
      (∑ j ∈ Finset.range (2 ^ n),
        x l * (twoRoot n ^ k * ((twoRoot n)⁻¹) ^ l) ^ j) =
      x l * (if k = l then ((2 : ℂ) ^ n) else 0) := by
    intro l hl
    rw [← Finset.mul_sum, twoRoot_orth n k l hk (Finset.mem_range.mp hl)]
  rw [Finset.sum_congr rfl hinner]
  simp only [mul_ite, mul_zero]
  rw [Finset.sum_ite_eq, if_pos (Finset.mem_range.mpr hk)]
  have h2 : ((2 : ℂ) ^ n) ≠ 0 := pow_ne_zero _ two_ne_zero
  field_simp

/-- The forward FFT undoes the inverse FFT on every index of the block. -/
theorem fft_ifft (n : ℕ) (y : ℕ → ℂ) (k : ℕ) (hk : k < 2 ^ n) :
    fft n (ifft n y) k = y k := by
  rw [fft_spec n _ k hk]
  have hstep : ∀ j ∈ Finset.range (2 ^ n), ifft n y j * ((twoRoot n)⁻¹) ^ (j * k) =
      ((2 : ℂ) ^ n)⁻¹ * ∑ l ∈ Finset.range (2 ^ n),
        y l * (twoRoot n ^ l * ((twoRoot n)⁻¹) ^ k) ^ j := by
    intro j hj
    rw [ifft_spec n y j (Finset.mem_range.mp hj), mul_assoc, Finset.sum_mul]
    congr 1
    refine Finset.sum_congr rfl fun l _ => ?_
    rw [mul_pow, ← pow_mul, ← pow_mul, mul_comm j k]
    ring
  rw [Finset.sum_congr rfl hstep, ← Finset.mul_sum, Finset.sum_comm]
  have hinner : ∀ l ∈ Finset.range (2 ^ n),
      (∑ j ∈ Finset.range (2 ^ n),
        y l * (twoRoot n ^ l * ((twoRoot n)⁻¹) ^ k) ^ j) =
      y l * (if l = k then ((2 : ℂ) ^ n) else 0) := by
    intro l hl
    rw [← Finset.mul_sum, twoRoot_orth n l k (Finset.mem_range.mp hl) hk]
  rw [Finset.sum_congr rfl hinner]
  simp only [mul_ite, mul_zero]
  rw [Finset.sum_ite_eq', if_pos (Finset.mem_range.mpr hk)]
  have h2 : ((2 : ℂ) ^ n) ≠ 0 := pow_ne_zero _ two_ne_zero
  field_simp

/-- The forward transform of a block that vanishes on its whole index range
vanishes on the whole index range. -/
lemma fft_eq_zero (n : ℕ) (x : ℕ → ℂ) (hx : ∀ j < 2 ^ n, x j = 0)
    (k : ℕ) (hk : k < 2 ^ n) : fft n x k = 0 := by
  rw [fft_spec n x k hk]
  refine Finset.sum_eq_zero fun j hj => ?_
  rw [hx j (Finset.mem_range.mp hj), zero_mul]

/-- The inverse transform of a block that vanishes on its whole index range
vanishes on the whole index range. -/
lemma ifft_eq_zero (n : ℕ) (x : ℕ → ℂ) (hx : ∀ j < 2 ^ n, x j = 0)
    (k : ℕ) (hk : k < 2 ^ n) : ifft n x k = 0 := by
  rw [ifft_spec n x k hk]
  rw [Finset.sum_eq_zero fun j hj => by
    rw [hx j (Finset.mem_range.mp hj), zero_mul]]
  rw [mul_zero]

/-! Shape of the three branches of the worklet process callback. -/

/-- With no input block, process only latches parameters and returns a zero
output block; buffers are untouched. -/
lemma process_none_eq (s : WorkletState) (sampleRate : ℝ)
    (pc pw pf pg : Option ℝ) (blockSize : ℕ) :
    PlateauProcessor.process s sampleRate pc pw pf pg none blockSize =
      { output := fun _ => 0
        state := { s with
          centerFreq := pc.getD s.centerFreq
          width := max (pw.getD s.width) (pf.getD s.flatWidth + 1)
          flatWidth := pf.getD s.flatWidth
          gain := pg.getD s.gain }
        usedFFT := false } := by
  simp only [PlateauProcessor.process]

/-- With an effective gain of exactly zero, process latches parameters and
returns a zero output block without touching the buffers or the transform. -/
lemma process_gain_zero_eq (s : WorkletState) (sampleRate : ℝ)
    (pc pw pf pg : Option ℝ) (input : ℕ → ℝ) (blockSize : ℕ)
    (hg : pg.getD s.gain = 0) :
    PlateauProcessor.process s sampleRate pc pw pf pg (some input) blockSize =
      { output := fun _ => 0
        state := { s with
          centerFreq := pc.getD s.centerFreq
          width := max (pw.getD s.width) (pf.getD s.flatWidth + 1)
          flatWidth := pf.getD s.flatWidth
          gain := pg.getD s.gain }
        usedFFT := false } := by
  simp only [PlateauProcessor.process]
  rw [if_pos hg]

/-- With input present and a nonzero effective gain, process runs the full
frame pipeline; its output and buffer updates are described by procVal. -/
lemma process_main_eq (s : WorkletState) (sampleRate : ℝ)
    (pc pw pf pg : Option ℝ) (input : ℕ → ℝ) (blockSize : ℕ)
    (hg : pg.getD s.gain ≠ 0) :
    PlateauProcessor.process s sampleRate pc pw pf pg (some input) blockSize =
      { output := fun i => if i < blockSize then
            procVal s.fftN sampleRate (pc.getD s.centerFreq)
              (max (pw.getD s.width) (pf.getD s.flatWidth + 1)) (pf.getD s.flatWidth)
              (pg.getD s.gain) input blockSize i + s.overlappedOutput i
          else 0
        state := { centerFreq := pc.getD s.centerFreq
                   width := max (pw.getD s.width) (pf.getD s.flatWidth + 1)
                   flatWidth := pf.getD s.flatWidth
                   gain := pg.getD s.gain
                   fftN := s.fftN
                   overlappedOutput := fun i => if i < blockSize then
                       (if i + blockSize < 2 ^ s.fftN then
                         procVal s.fftN sampleRate (pc.getD s.centerFreq)
                           (max (pw.getD s.width) (pf.getD s.flatWidth + 1))
                           (pf.getD s.flatWidth) (pg.getD s.gain) input blockSize
                           (i + blockSize)
                       else 0)
                     else s.overlappedOutput i
                   processedOutput := fun i => if i < 2 ^ s.fftN then
                       procVal s.fftN sampleRate (pc.getD s.centerFreq)
                         (max (pw.getD s.width) (pf.getD s.flatWidth + 1))
                         (pf.getD s.flatWidth) (pg.getD s.gain) input blockSize i
                     else s.processedOutput i }
        usedFFT := true } := by
  simp only [PlateauProcessor.process, procVal]
  rw [if_neg hg]

/-- On an all-zero input block the frame pipeline produces all-zero
processed values. -/
lemma procVal_zero_input (n : ℕ) (sampleRate centerFreq width flatWidth gain : ℝ)
    (blockSize : ℕ) (i : ℕ) (hi : i < 2 ^ n) :
    procVal n sampleRate centerFreq width flatWidth gain (fun _ => 0) blockSize i = 0 := by
  simp only [procVal, zero_mul, ite_self, mkC_zero]
  rw [ifft_eq_zero n _ (fun j hj => by
      rw [fft_eq_zero n _ (fun t _ => rfl) j hj, cscale_zero_left]) i hi]
  rw [Complex.zero_re, zero_mul]

/-! Facts about the running-maximum fold used by applyFFTFilter. -/

lemma foldl_max_abs_init (l : List ℝ) : ∀ a : ℝ,
    a ≤ l.foldl (fun m x => max m (abs x)) a := by
  induction l with
  | nil => intro a; simp
  | cons x l ih =>
    intro a
    simp only [List.foldl_cons]
    exact le_trans (le_max_left a (abs x)) (ih (max a (abs x)))

lemma foldl_max_abs_mem (l : List ℝ) : ∀ (a x : ℝ), x ∈ l →
    abs x ≤ l.foldl (fun m y => max m (abs y)) a := by
  induction l with
  | nil => intro a x hx; simp at hx
  | cons y l ih =>
    intro a x hx
    simp only [List.foldl_cons]
    rcases List.mem_cons.mp hx with h | h
    · subst h
      exact le_trans (le_max_right a (abs x)) (foldl_max_abs_init l (max a (abs x)))
    · exact ih (max a (abs y)) x h

lemma normalize_length (result : List ℝ) :
    (if result.foldl (fun m x => max m (abs x)) 0 > 0
      then result.map fun x => x / result.foldl (fun m x => max m (abs x)) 0
      else result).length = result.length := by
  split <;> simp

lemma normalize_bound (result : List ℝ) : ∀ x ∈
    (if result.foldl (fun m x => max m (abs x)) 0 > 0
      then result.map fun x => x / result.foldl (fun m x => max m (abs x)) 0
      else result), abs x ≤ 1 := by
  by_cases hpos : result.foldl (fun m x => max m (abs x)) 0 > 0
  · rw [if_pos hpos]
    intro x hx
    rcases List.mem_map.mp hx with ⟨y, hy, rfl⟩
    rw [abs_div, abs_of_pos hpos, div_le_one hpos]
    exact foldl_max_abs_mem result 0 y hy
  · rw [if_neg hpos]
    intro x hx
    have h1 : abs x ≤ result.foldl (fun m y => max m (abs y)) 0 :=
      foldl_max_abs_mem result 0 x hx
    have h2 : ¬ (0 : ℝ) < result.foldl (fun m y => max m (abs y)) 0 := hpos
    linarith

/-- C3: for every power-of-two length 2^n the transforms are mutual
inverses: the real parts of ifft(fft(x)) reproduce a real input x exactly
on every index (hence within the stated 1e-9 relative tolerance), and
ifft(fft(y)) = y and fft(ifft(y)) = y for complex blocks — the 0.5 scale
at each of the n combination levels of ifft accumulates to exactly 1/2^n. -/
theorem claim_C3_fft_ifft_roundtrip (n : ℕ) (x : ℕ → ℝ) (y : ℕ → ℂ) (k : ℕ)
    (hk : k < 2 ^ n) :
    (ifft n (fft n fun i => ((x i : ℝ) : ℂ)) k).re = x k ∧
    ifft n (fft n y) k = y k ∧ fft n (ifft n y) k = y k := by
  refine ⟨?_, ifft_fft n y k hk, fft_ifft n y k hk⟩
  rw [ifft_fft n _ k hk]
  exact Complex.ofReal_re (x k)

/-- Witness for C3 at n = 1, the constant-one block, index 0. -/
theorem claim_C3_witness :
    (ifft 1 (fft 1 fun i => (((fun _ : ℕ => (1 : ℝ)) i : ℝ) : ℂ)) 0).re =
        (fun _ : ℕ => (1 : ℝ)) 0 ∧
    ifft 1 (fft 1 fun _ : ℕ => (1 : ℂ)) 0 = (fun _ : ℕ => (1 : ℂ)) 0 ∧
    fft 1 (ifft 1 fun _ : ℕ => (1 : ℂ)) 0 = (fun _ : ℕ => (1 : ℂ)) 0 :=
  claim_C3_fft_ifft_roundtrip 1 (fun _ => 1) (fun _ => 1) 0 (by norm_num)

/-- C5: from a state with width > flatWidth, each single setter of
plateau.js preserves width > flatWidth strictly, and setting a width
value ≤ flatWidth yields width = flatWidth + 1 after the update. -/
theorem claim_C5_width_invariant (f : PlateauFilter) (v : ℝ)
    (h : f.flatWidth < f.width) :
    (f.setCenterFreq v).flatWidth < (f.setCenterFreq v).width ∧
    (f.setWidth v).flatWidth < (f.setWidth v).width ∧
    (f.setFlatWidth v).flatWidth < (f.setFlatWidth v).width ∧
    (f.setGain v).flatWidth < (f.setGain v).width ∧
    (v ≤ f.flatWidth → (f.setWidth v).width = f.flatWidth + 1) := by
  refine ⟨h, ?_, ?_, h, ?_⟩
  · show f.flatWidth < max v (f.flatWidth + 1)
    exact lt_max_of_lt_right (by linarith)
  · show min v (f.width - 1) < f.width
    exact lt_of_le_of_lt (min_le_right _ _) (by linarith)
  · intro hv
    show max v (f.flatWidth + 1) = f.flatWidth + 1
    exact max_eq_right (by linarith)

/-- Witness for C5 at a concrete filter state and update value. -/
theorem claim_C5_witness :
    ((⟨10000, 5000, 2000, 1⟩ : PlateauFilter).setCenterFreq 100).flatWidth <
      ((⟨10000, 5000, 2000, 1⟩ : PlateauFilter).setCenterFreq 100).width ∧
    ((⟨10000, 5000, 2000, 1⟩ : PlateauFilter).setWidth 100).flatWidth <
      ((⟨10000, 5000, 2000, 1⟩ : PlateauFilter).setWidth 100).width ∧
    ((⟨10000, 5000, 2000, 1⟩ : PlateauFilter).setFlatWidth 100).flatWidth <
      ((⟨10000, 5000, 2000, 1⟩ : PlateauFilter).setFlatWidth 100).width ∧
    ((⟨10000, 5000, 2000, 1⟩ : PlateauFilter).setGain 100).flatWidth <
      ((⟨10000, 5000, 2000, 1⟩ : PlateauFilter).setGain 100).width ∧
    ((100 : ℝ) ≤ (⟨10000, 5000, 2000, 1⟩ : PlateauFilter).flatWidth →
      ((⟨10000, 5000, 2000, 1⟩ : PlateauFilter).setWidth 100).width =
        (⟨10000, 5000, 2000, 1⟩ : PlateauFilter).flatWidth + 1) :=
  claim_C5_width_invariant ⟨10000, 5000, 2000, 1⟩ 100 (show (2000 : ℝ) < 5000 by norm_num)

/-- C6: when the effective gain of a block is exactly 0 the worklet
process returns an all-zero output block and never invokes the FFT. -/
theorem claim_C6_gain_zero_fast_path (s : WorkletState) (sampleRate : ℝ)
    (pc pw pf pg : Option ℝ) (input : ℕ → ℝ) (blockSize : ℕ)
    (hg : pg.getD s.gain = 0) :
    (∀ i, (PlateauProcessor.process s sampleRate pc pw pf pg
        (some input) blockSize).output i = 0) ∧
    (PlateauProcessor.process s sampleRate pc pw pf pg
        (some input) blockSize).usedFFT = false := by
  rw [process_gain_zero_eq s sampleRate pc pw pf pg input blockSize hg]
  exact ⟨fun _ => rfl, rfl⟩

/-- Witness for C6 at a concrete state and gain parameter 0. -/
theorem claim_C6_witness :
    (∀ i, (PlateauProcessor.process ⟨10000, 5000, 2000, 1, 11, fun _ => 0, fun _ => 0⟩
        44100 none none none (some 0) (some fun _ => 1) 128).output i = 0) ∧
    (PlateauProcessor.process ⟨10000, 5000, 2000, 1, 11, fun _ => 0, fun _ => 0⟩
        44100 none none none (some 0) (some fun _ => 1) 128).usedFFT = false :=
  claim_C6_gain_zero_fast_path _ _ _ _ _ _ _ _ rfl

/-- C7: both plateau mask generators force the DC bin to zero for every
parameter combination. -/
theorem claim_C7_dc_zero (centerFreq width flatWidth sampleRate : ℝ) (size : ℕ)
    (frequencies : ℕ → ℝ) (targetFreq widthF delta : ℝ) :
    createPlateauFilterMask centerFreq width flatWidth size sampleRate 0 = 0 ∧
    createPlateauFilterMaskF frequencies targetFreq widthF delta 0 = 0 := by
  constructor <;> simp [createPlateauFilterMask, createPlateauFilterMaskF]

/-- C8: with no input block available the worklet process returns a zero
output block and leaves the overlap buffer untouched. -/
theorem claim_C8_missing_input (s : WorkletState) (sampleRate : ℝ)
    (pc pw pf pg : Option ℝ) (blockSize : ℕ) :
    (∀ i, (PlateauProcessor.process s sampleRate pc pw pf pg
        none blockSize).output i = 0) ∧
    (PlateauProcessor.process s sampleRate pc pw pf pg
        none blockSize).state.overlappedOutput = s.overlappedOutput := by
  rw [process_none_eq]
  exact ⟨fun _ => rfl, rfl⟩

/-- C9: the gain-zero bypass leaves the overlap buffer completely
unchanged, and consequently there is an input stream (a gain-0 block
followed by a gain-1 block of silence) whose first block after the gain
change adds the stale overlap tail into its output: the output sample
equals the pre-bypass overlap value 1 rather than 0. -/
theorem claim_C9_stale_overlap :
    (∀ (s : WorkletState) (sampleRate : ℝ) (pc pw pf pg : Option ℝ)
        (input : ℕ → ℝ) (blockSize : ℕ), pg.getD s.gain = 0 →
      (PlateauProcessor.process s sampleRate pc pw pf pg
          (some input) blockSize).state.overlappedOutput = s.overlappedOutput) ∧
    ((PlateauProcessor.process
        (PlateauProcessor.process ⟨10000, 5000, 2000, 0, 2, fun _ => 1, fun _ => 0⟩
          8000 (some 1000) (some 5000) (some 2000) (some 0) (some fun _ => 5) 1).state
        8000 none none none (some 1) (some fun _ => 0) 1).output 0 =
      (⟨10000, 5000, 2000, 0, 2, fun _ => 1, fun _ => 0⟩ : WorkletState).overlappedOutput 0 ∧
      (⟨10000, 5000, 2000, 0, 2, fun _ => 1, fun _ => 0⟩ : WorkletState).overlappedOutput 0 ≠ 0) := by
  constructor
  · intro s sampleRate pc pw pf pg input blockSize hg
    rw [process_gain_zero_eq s sampleRate pc pw pf pg input blockSize hg]
  · have h1 : (PlateauProcessor.process ⟨10000, 5000, 2000, 0, 2, fun _ => 1, fun _ => 0⟩
        8000 (some 1000) (some 5000) (some 2000) (some 0) (some fun _ => 5) 1).state =
        (⟨1000, max 5000 (2000 + 1), 2000, 0, 2, fun _ => 1, fun _ => 0⟩ : WorkletState) := by
      rw [process_gain_zero_eq ⟨10000, 5000, 2000, 0, 2, fun _ => 1, fun _ => 0⟩
        8000 (some 1000) (some 5000) (some 2000) (some 0) (fun _ => 5) 1 rfl]
      rfl
    rw [h1]
    rw [process_main_eq ⟨1000, max 5000 (2000 + 1), 2000, 0, 2, fun _ => 1, fun _ => 0⟩
      8000 none none none (some 1) (fun _ => 0) 1 (show (1 : ℝ) ≠ 0 by norm_num)]
    refine ⟨?_, show (1 : ℝ) ≠ 0 by norm_num⟩
    show (if 0 < 1 then
        procVal 2 8000 1000 (max (max 5000 (2000 + 1)) (2000 + 1)) 2000 1
          (fun _ => 0) 1 0 + 1
      else 0) = 1
    rw [if_pos (show (0 : ℕ) < 1 by norm_num)]
    rw [procVal_zero_input 2 8000 1000 (max (max 5000 (2000 + 1)) (2000 + 1)) 2000 1 1 0
      (by norm_num)]
    norm_num

/-- Witness for the quantified part of C9 at a concrete state. -/
theorem claim_C9_witness :
    (PlateauProcessor.process ⟨10000, 5000, 2000, 1, 11, fun _ => 0, fun _ => 0⟩
        44100 none none none (some 0) (some fun _ => 1) 128).state.overlappedOutput =
      (⟨10000, 5000, 2000, 1, 11, fun _ => 0, fun _ => 0⟩ : WorkletState).overlappedOutput :=
  claim_C9_stale_overlap.1 _ _ _ _ _ _ _ _ rfl

/-- C10: applyFFTFilter returns a block of the same length as its input
whose samples all have absolute value at most 1 (division by the maximum
amplitude when it is positive, an all-zero block otherwise). -/
theorem claim_C10_normalized_output (samples : List ℝ)
    (sampleRate targetFreq width delta : ℝ) :
    (applyFFTFilter samples sampleRate targetFreq width delta).length = samples.length ∧
    ∀ x ∈ applyFFTFilter samples sampleRate targetFreq width delta, abs x ≤ 1 := by
  constructor
  · simp only [applyFFTFilter]
    rw [normalize_length, List.length_map, List.length_range]
  · simp only [applyFFTFilter]
    exact normalize_bound _

/-- Witness for C10 on the one-sample block [0]. -/
theorem claim_C10_witness :
    (applyFFTFilter [(0 : ℝ)] 44100 10000 5000 2000).length = [(0 : ℝ)].length ∧
    ∀ x ∈ applyFFTFilter [(0 : ℝ)] 44100 10000 5000 2000, abs x ≤ 1 :=
  claim_C10_normalized_output [(0 : ℝ)] 44100 10000 5000 2000

/-- C1 (amended): for a block with input present, effective gain nonzero
and B ≤ N = 2^fftN, the worklet writes output[i] = processed[i] +
overlapOld[i] for i < B; the overlap refresh covers only the first B
entries — overlapNew[i] = processed[i+B] when i + B < N and 0 when
i + B ≥ N, for i < B — while entries i ≥ B keep their previous values
(the source loop runs only over the output block, not over [0, N−B)). -/
theorem claim_C1_overlap_add (s : WorkletState) (sampleRate : ℝ)
    (pc pw pf pg : Option ℝ) (input : ℕ → ℝ) (blockSize : ℕ)
    (hg : pg.getD s.gain ≠ 0) (hB : blockSize ≤ 2 ^ s.fftN) :
    (∀ i < blockSize,
      (PlateauProcessor.process s sampleRate pc pw pf pg (some input) blockSize).output i =
        (PlateauProcessor.process s sampleRate pc pw pf pg
          (some input) blockSize).state.processedOutput i + s.overlappedOutput i) ∧
    (∀ i < blockSize, i + blockSize < 2 ^ s.fftN →
      (PlateauProcessor.process s sampleRate pc pw pf pg
          (some input) blockSize).state.overlappedOutput i =
        (PlateauProcessor.process s sampleRate pc pw pf pg
          (some input) blockSize).state.processedOutput (i + blockSize)) ∧
    (∀ i < blockSize, 2 ^ s.fftN ≤ i + blockSize →
      (PlateauProcessor.process s sampleRate pc pw pf pg
          (some input) blockSize).state.overlappedOutput i = 0) ∧
    (∀ i, blockSize ≤ i →
      (PlateauProcessor.process s sampleRate pc pw pf pg
          (some input) blockSize).state.overlappedOutput i = s.overlappedOutput i) := by
  rw [process_main_eq s sampleRate pc pw pf pg input blockSize hg]
  refine ⟨?_, ?_, ?_, ?_⟩
  · intro i hi
    show (if i < blockSize then _ + _ else 0) = (if i < 2 ^ s.fftN then _ else _) + _
    rw [if_pos hi, if_pos (lt_of_lt_of_le hi hB)]
  · intro i hi hiB
    show (if i < blockSize then _ else _) = (if i + blockSize < 2 ^ s.fftN then _ else _)
    rw [if_pos hi, if_pos hiB, if_pos hiB]
  · intro i hi hiB
    show (if i < blockSize then _ else _) = (0 : ℝ)
    rw [if_pos hi, if_neg (not_lt.mpr hiB)]
  · intro i hi
    show (if i < blockSize then _ else _) = _
    rw [if_neg (not_lt.mpr hi)]

/-- Witness for C1 at a concrete state, gain 1, block size 2, N = 4. -/
theorem claim_C1_witness :
    (∀ i < 2,
      (PlateauProcessor.process ⟨10000, 5000, 2000, 0, 2, fun _ => 0, fun _ => 0⟩
          8000 none none none (some 1) (some fun _ => 0) 2).output i =
        (PlateauProcessor.process ⟨10000, 5000, 2000, 0, 2, fun _ => 0, fun _ => 0⟩
          8000 none none none (some 1) (some fun _ => 0) 2).state.processedOutput i +
          (⟨10000, 5000, 2000, 0, 2, fun _ => 0, fun _ => 0⟩ : WorkletState).overlappedOutput i) ∧
    (∀ i < 2, i + 2 < 2 ^ (⟨10000, 5000, 2000, 0, 2, fun _ => 0, fun _ => 0⟩ : WorkletState).fftN →
      (PlateauProcessor.process ⟨10000, 5000, 2000, 0, 2, fun _ => 0, fun _ => 0⟩
          8000 none none none (some 1) (some fun _ => 0) 2).state.overlappedOutput i =
        (PlateauProcessor.process ⟨10000, 5000, 2000, 0, 2, fun _ => 0, fun _ => 0⟩
          8000 none none none (some 1) (some fun _ => 0) 2).state.processedOutput (i + 2)) ∧
    (∀ i < 2, 2 ^ (⟨10000, 5000, 2000, 0, 2, fun _ => 0, fun _ => 0⟩ : WorkletState).fftN ≤ i + 2 →
      (PlateauProcessor.process ⟨10000, 5000, 2000, 0, 2, fun _ => 0, fun _ => 0⟩
          8000 none none none (some 1) (some fun _ => 0) 2).state.overlappedOutput i = 0) ∧
    (∀ i, 2 ≤ i →
      (PlateauProcessor.process ⟨10000, 5000, 2000, 0, 2, fun _ => 0, fun _ => 0⟩
          8000 none none none (some 1) (some fun _ => 0) 2).state.overlappedOutput i =
        (⟨10000, 5000, 2000, 0, 2, fun _ => 0, fun _ => 0⟩ : WorkletState).overlappedOutput i) :=
  claim_C1_overlap_add ⟨10000, 5000, 2000, 0, 2, fun _ => 0, fun _ => 0⟩
    8000 none none none (some 1) (fun _ => 0) 2
    (show (1 : ℝ) ≠ 0 by norm_num) (show (2 : ℕ) ≤ 2 ^ 2 by norm_num)

/-- Counterexample to C1 as stated: with N = 4 and B = 1 the index 1 lies
in [0, N−B), yet after a block on all-zero input the refreshed overlap
buffer still holds its old value 1 at index 1 while processed[1+1] = 0 —
the refresh loop never reaches indices ≥ B. -/
theorem claim_C1_counterexample :
    (1 : ℕ) < 2 ^ 2 - 1 ∧
    (PlateauProcessor.process ⟨10000, 5000, 2000, 0, 2, fun _ => 1, fun _ => 0⟩ 8000
        (some 1000) (some 5000) (some 2000) (some 1)
        (some fun _ => 0) 1).state.overlappedOutput 1 ≠
      (PlateauProcessor.process ⟨10000, 5000, 2000, 0, 2, fun _ => 1, fun _ => 0⟩ 8000
        (some 1000) (some 5000) (some 2000) (some 1)
        (some fun _ => 0) 1).state.processedOutput (1 + 1) := by
  constructor
  · norm_num
  · rw [process_main_eq ⟨10000, 5000, 2000, 0, 2, fun _ => 1, fun _ => 0⟩ 8000
      (some 1000) (some 5000) (some 2000) (some 1) (fun _ => 0) 1
      (show (1 : ℝ) ≠ 0 by norm_num)]
    show (if 1 < 1 then
        (if 1 + 1 < 2 ^ 2 then
          procVal 2 8000 1000 (max 5000 (2000 + 1)) 2000 1 (fun _ => 0) 1 (1 + 1)
        else 0)
      else (1 : ℝ)) ≠
      (if 1 + 1 < 2 ^ 2 then
        procVal 2 8000 1000 (max 5000 (2000 + 1)) 2000 1 (fun _ => 0) 1 (1 + 1)
      else (0 : ℝ))
    rw [if_neg (show ¬ (1 : ℕ) < 1 by norm_num),
      if_pos (show (1 : ℕ) + 1 < 2 ^ 2 by norm_num),
      procVal_zero_input 2 8000 1000 (max 5000 (2000 + 1)) 2000 1 1 (1 + 1) (by norm_num)]
    norm_num

/-- C2 is a requirement the code violates: at equal parameters
(centerFreq 1000, width 1000, flatWidth 500, gain 1, sample rate 8000)
and the same 4-sample input block, the worklet path outputs 0 at sample 1
(every mask bin is 0 there) while the fallback _processAudio outputs 3/4
(its FFT and IFFT are identity stubs, so it scales time-domain samples by
a mask evaluated on a different frequency axis). -/
theorem claim_C2_divergence :
    (PlateauProcessor.process ⟨10000, 5000, 2000, 0, 2, fun _ => 0, fun _ => 0⟩ 8000
        (some 1000) (some 1000) (some 500) (some 1)
        (some fun i => if i = 1 then (1 : ℝ) else 0) 4).output 1 = 0 ∧
    (⟨1000, 1000, 500, 1⟩ : PlateauFilter).processAudio 8000 4
        (fun i => if i = 1 then (1 : ℝ) else 0) 1 = 3 / 4 ∧
    (PlateauProcessor.process ⟨10000, 5000, 2000, 0, 2, fun _ => 0, fun _ => 0⟩ 8000
        (some 1000) (some 1000) (some 500) (some 1)
        (some fun i => if i = 1 then (1 : ℝ) else 0) 4).output 1 ≠
      (⟨1000, 1000, 500, 1⟩ : PlateauFilter).processAudio 8000 4
        (fun i => if i = 1 then (1 : ℝ) else 0) 1 := by
  have hwk : (PlateauProcessor.process ⟨10000, 5000, 2000, 0, 2, fun _ => 0, fun _ => 0⟩ 8000
      (some 1000) (some 1000) (some 500) (some 1)
      (some fun i => if i = 1 then (1 : ℝ) else 0) 4).output 1 = 0 := by
    have hproc : procVal 2 8000 1000 (max 1000 (500 + 1)) 500 1
        (fun i => if i = 1 then (1 : ℝ) else 0) 4 1 = 0 := by
      unfold procVal
      rw [ifft_eq_zero 2 _ (fun j hj => by
        have hj4 : j < 4 := by norm_num at hj; exact hj
        have hmask : createPlateauFilterMask 1000 (max 1000 (500 + 1)) 500
            (2 ^ 2) 8000 j = 0 := by
          rw [max_eq_left (show (500 : ℝ) + 1 ≤ 1000 by norm_num)]
          interval_cases j <;>
            norm_num [createPlateauFilterMask, freqAt, abs_of_nonneg, abs_of_nonpos]
        rw [hmask, zero_mul, cscale_zero_right]) 1 (by norm_num)]
      rw [Complex.zero_re, zero_mul]
    rw [process_main_eq ⟨10000, 5000, 2000, 0, 2, fun _ => 0, fun _ => 0⟩ 8000
      (some 1000) (some 1000) (some 500) (some 1) (fun i => if i = 1 then (1 : ℝ) else 0) 4
      (show (1 : ℝ) ≠ 0 by norm_num)]
    show (if 1 < 4 then
        procVal 2 8000 1000 (max 1000 (500 + 1)) 500 1
          (fun i => if i = 1 then (1 : ℝ) else 0) 4 1 + 0
      else 0) = 0
    rw [if_pos (show (1 : ℕ) < 4 by norm_num), hproc]
    norm_num
  have hfb : (⟨1000, 1000, 500, 1⟩ : PlateauFilter).processAudio 8000 4
      (fun i => if i = 1 then (1 : ℝ) else 0) 1 = 3 / 4 := by
    have hh : hanningWindow 4 1 = 3 / 4 := by
      unfold hanningWindow
      rw [show 2 * Real.pi * ((1 : ℕ) : ℝ) / (((4 : ℕ) : ℝ) - 1) = Real.pi - Real.pi / 3 by
        push_cast; ring]
      rw [Real.cos_pi_sub, Real.cos_pi_div_three]
      norm_num
    unfold PlateauFilter.processAudio calculateIFFT PlateauFilter.applyFilter calculateFFT
      applyWindow PlateauFilter.calculateMask
    norm_num [hh]
  refine ⟨hwk, hfb, ?_⟩
  rw [hwk, hfb]
  norm_num

/-- C4: the worklet mask generator computes, on every bin of a
power-of-two-size mask, exactly the claim's folded-frequency-axis
raised-cosine plateau formula with bin 0 forced to 0. -/
theorem claim_C4_mask_matches_spec (centerFreq width flatWidth sampleRate : ℝ)
    (m i : ℕ) (hwf : flatWidth < width) (hi : i < 2 ^ m) :
    createPlateauFilterMask centerFreq width flatWidth (2 ^ m) sampleRate i =
      maskSpecC4 centerFreq width flatWidth sampleRate (2 ^ m) i := by
  have hcond : ((i : ℝ) ≤ ((2 ^ m : ℕ) : ℝ) / 2) ↔ i ≤ 2 ^ m / 2 := by
    rw [le_div_iff₀ (by norm_num : (0 : ℝ) < 2),
      Nat.le_div_iff_mul_le (by norm_num : 0 < 2)]
    constructor
    · intro h
      exact_mod_cast h
    · intro h
      exact_mod_cast h
  have hfreq : freqAt sampleRate (2 ^ m) i =
      (if i ≤ 2 ^ m / 2 then (i : ℝ) * sampleRate / ((2 ^ m : ℕ) : ℝ)
       else ((i : ℝ) - ((2 ^ m : ℕ) : ℝ)) * sampleRate / ((2 ^ m : ℕ) : ℝ)) := by
    unfold freqAt
    by_cases hc : (i : ℝ) ≤ ((2 ^ m : ℕ) : ℝ) / 2
    · rw [if_pos hc, if_pos (hcond.mp hc)]
    · rw [if_neg hc, if_neg fun hh => hc (hcond.mpr hh)]
  unfold createPlateauFilterMask maskSpecC4
  rw [hfreq]

/-- Witness for C4 at the spec's reference parameters, N = 2^11, bin 5. -/
theorem claim_C4_witness :
    createPlateauFilterMask 10000 5000 2000 (2 ^ 11) 44100 5 =
      maskSpecC4 10000 5000 2000 44100 (2 ^ 11) 5 :=
  claim_C4_mask_matches_spec 10000 5000 2000 44100 11 5 (by norm_num) (by norm_num)

end NoiseShaper
